import Mathlib

/-!
Shallow embedding of the API-surface generator in src/build/generate-api.ts.

Strings are modelled as lists of characters; the external ts-morph analysis
layer is modelled by record types carrying the text fragments the generator
reads through its accessors (getText, getName, getTypeParameters, getScope,
getProperties, getBaseDeclarations, getType().getText, removeBody followed by
getText).  Thrown JavaScript errors are modelled with the Except monad.
-/

/-- Strings of the embedded program: a JavaScript string as a list of
characters. -/
abbrev Str := List Char

/-- Inject a Lean string literal into the embedding. -/
def str (s : String) : Str := s.data

/-- The characters matched by the JavaScript regular-expression class needed
here (the ASCII part of the regex whitespace class): space, tab, line feed,
carriage return, vertical tab, form feed. -/
def isJsWS (c : Char) : Bool :=
  c = ' ' || c = '\t' || c = '\n' || c = '\r' || c = '\x0b' || c = '\x0c'

/-- Emit a pending whitespace run: a run of length at least two is one regex
match and becomes the replacer, a run of length one is not matched by the
two-character-minimum pattern and is kept as it was, an empty run emits
nothing. -/
def flushRun (replacer : Str) : Str → Str
  | [] => []
  | [c] => [c]
  | _ :: _ :: _ => replacer

/-- Left-to-right scan implementing the global regex replacement of
maximal whitespace runs; the first argument is the replacement text and the
second accumulates the current pending whitespace run. -/
def collapseGo (replacer : Str) : Str → Str → Str
  | run, [] => flushRun replacer run
  | run, c :: rest =>
    if isJsWS c then collapseGo replacer (run ++ [c]) rest
    else flushRun replacer run ++ c :: collapseGo replacer [] rest

/-- Source lines 231-233: text.replace of every match of two-or-more
whitespace characters by a single space.  The source declares an optional
replacer parameter, but every call site uses its default value of one
space, which is fixed here. -/
def removeDoubleSpacesAndLineBreaks (text : Str) : Str :=
  collapseGo (str " ") [] text

/-- JavaScript String.prototype.trim restricted to the ASCII whitespace
characters: drop leading and trailing whitespace. -/
def jsTrim (s : Str) : Str :=
  ((s.dropWhile isJsWS).reverse.dropWhile isJsWS).reverse

/-- JavaScript String.prototype.replace with a plain-string pattern: replace
the first occurrence of the pattern, scanning left to right, and return the
input unchanged when the pattern does not occur. -/
def replaceFirst (pat repl : Str) : Str → Str
  | [] => if pat = [] then repl else []
  | c :: rest =>
    if pat.isPrefixOf (c :: rest) then repl ++ (c :: rest).drop pat.length
    else c :: replaceFirst pat repl rest

/-- JavaScript Array.prototype.join with a separator string. -/
def joinSep (sep : Str) : List Str → Str
  | [] => []
  | [x] => x
  | x :: y :: rest => x ++ sep ++ joinSep sep (y :: rest)

/-- ts-morph FunctionDeclaration handle: the declaration text, and the text
observed after the removeBody mutation (the signature terminated by a
semicolon). -/
structure FunctionDecl where
  text : Str
  textNoBody : Str
deriving DecidableEq

/-- ts-morph MethodDeclaration handle: the scope reported by getScope (which
returns the value public when the source has no explicit visibility
modifier), and the text observed after the removeBody mutation. -/
structure MethodDecl where
  scope : Str
  textNoBody : Str
deriving DecidableEq

/-- ts-morph ClassDeclaration handle: getName (undefined for a default-export
anonymous class), getText, the texts of the type parameters, the text of the
extends clause when present, the texts of the implements clauses, and the
method handles. -/
structure ClassDecl where
  name : Option Str
  text : Str
  typeParameters : List Str
  extendsClause : Option Str
  implementsClauses : List Str
  methods : List MethodDecl
deriving DecidableEq

/-- ts-morph VariableDeclaration handle: getName, getText, the resolved type
text produced by getType().getText(declaration), plus the pieces of the
source declaration that the formatter never reads: the initializer
expression text and the binding keyword of the enclosing statement
(const, let or var). -/
structure VariableDecl where
  name : Str
  text : Str
  typeText : Str
  initializerText : Option Str
  declarationKeyword : Str
deriving DecidableEq

/-- ts-morph TypeAliasDeclaration handle: getText. -/
structure TypeAliasDecl where
  text : Str
deriving DecidableEq

/-- ts-morph EnumDeclaration handle: getText. -/
structure EnumDecl where
  text : Str
deriving DecidableEq

/-- ts-morph InterfaceDeclaration handle: getName, getText, the texts of the
type parameters, the texts of the own property signatures (getProperties
yields only the properties declared on the interface itself), and
getBaseDeclarations, where each base is either an interface handle (some)
or a non-interface declaration (none), which is all the formatter
distinguishes through TypeGuards.isInterfaceDeclaration. -/
inductive InterfaceDecl : Type where
  | mk (name : Str) (text : Str) (typeParameters : List Str)
      (properties : List Str) (baseDeclarations : List (Option InterfaceDecl))

/-- getName of an interface handle. -/
def InterfaceDecl.name : InterfaceDecl → Str
  | .mk n _ _ _ _ => n

/-- getText of an interface handle. -/
def InterfaceDecl.text : InterfaceDecl → Str
  | .mk _ t _ _ _ => t

/-- getTypeParameters of an interface handle, as their texts. -/
def InterfaceDecl.typeParameters : InterfaceDecl → List Str
  | .mk _ _ tp _ _ => tp

/-- getProperties of an interface handle: the interface's own property
signatures, as their texts. -/
def InterfaceDecl.properties : InterfaceDecl → List Str
  | .mk _ _ _ p _ => p

/-- getBaseDeclarations of an interface handle. -/
def InterfaceDecl.baseDeclarations : InterfaceDecl → List (Option InterfaceDecl)
  | .mk _ _ _ _ b => b

/-- An exported declaration as resolved by getExportedDeclarations,
polymorphic over its syntax kind; the catch-all constructor carries the
kind name and raw text of any declaration kind the dispatch table does not
know. -/
inductive Decl where
  | functionDecl (f : FunctionDecl)
  | classDecl (c : ClassDecl)
  | variableDecl (v : VariableDecl)
  | interfaceDecl (i : InterfaceDecl)
  | typeAliasDecl (t : TypeAliasDecl)
  | enumDecl (e : EnumDecl)
  | other (kindName : Str) (text : Str)

/-- getKindName of a declaration handle. -/
def Decl.getKindName : Decl → Str
  | .functionDecl _ => str "FunctionDeclaration"
  | .classDecl _ => str "ClassDeclaration"
  | .variableDecl _ => str "VariableDeclaration"
  | .interfaceDecl _ => str "InterfaceDeclaration"
  | .typeAliasDecl _ => str "TypeAliasDeclaration"
  | .enumDecl _ => str "EnumDeclaration"
  | .other k _ => k

/-- getText of a declaration handle. -/
def Decl.getText : Decl → Str
  | .functionDecl f => f.text
  | .classDecl c => c.text
  | .variableDecl v => v.text
  | .interfaceDecl i => i.text
  | .typeAliasDecl t => t.text
  | .enumDecl e => e.text
  | .other _ t => t

/-- The kind names that own an entry in the dispatch table at source lines
11-20. -/
def knownKinds : List Str :=
  [str "ClassDeclaration", str "FunctionDeclaration",
   str "VariableDeclaration", str "InterfaceDeclaration",
   str "TypeAliasDeclaration", str "EnumDeclaration"]

/-- ts-morph consistency of a handle: getKindName answers the handle's own
syntax kind, so a declaration that is none of the six known kinds never
reports a known kind name.  Every handle the analysis layer produces
satisfies this. -/
def Decl.wellFormed : Decl → Bool
  | .other k _ => !(decide (k ∈ knownKinds))
  | _ => true

/-- Source lines 74-86: guard that the declaration is a function, remove its
body, drop the text export function by a first-occurrence string
replacement, collapse whitespace runs and trim. -/
def formatFunctionDeclaration : Decl → Except Str Str
  | .functionDecl f =>
    .ok (jsTrim (removeDoubleSpacesAndLineBreaks
      (replaceFirst (str "export function") [] f.textNoBody)))
  | _ => .error (str "Declaration is not a function")

/-- Source lines 139-147: a method whose scope is not public yields
undefined; otherwise its body is removed and its text returned. -/
def MethodDecl.formatMethodText (m : MethodDecl) : Option Str :=
  if m.scope = str "public" then some m.textNoBody else none

/-- JavaScript Array.prototype.filter with the Boolean predicate on an array
of string-or-undefined values: undefined and the empty string are dropped. -/
def filterBoolean : List (Option Str) → List Str
  | [] => []
  | none :: rest => filterBoolean rest
  | some s :: rest =>
    if s = [] then filterBoolean rest else s :: filterBoolean rest

/-- Source lines 96-99: the class type parameters, each whitespace-collapsed,
joined by comma-space. -/
def ClassDecl.typesText (c : ClassDecl) : Str :=
  joinSep (str ", ") (c.typeParameters.map removeDoubleSpacesAndLineBreaks)

/-- Source lines 101-103: the extends clause text, or the empty string when
there is none, whitespace-collapsed. -/
def ClassDecl.extendsText (c : ClassDecl) : Str :=
  removeDoubleSpacesAndLineBreaks
    (match c.extendsClause with
     | some e => e
     | none => [])

/-- Source lines 105-108: the implements clause texts, each
whitespace-collapsed, joined by comma-space. -/
def ClassDecl.implementsText (c : ClassDecl) : Str :=
  joinSep (str ", ") (c.implementsClauses.map removeDoubleSpacesAndLineBreaks)

/-- Source lines 110-114: format every method, keep the truthy results and
join them with CRLF. -/
def ClassDecl.methodsText (c : ClassDecl) : Str :=
  joinSep (str "\r\n") (filterBoolean (c.methods.map MethodDecl.formatMethodText))

/-- Source line 94 interpolated at line 117: a missing class name renders as
the text undefined in the template literal. -/
def ClassDecl.classNameText (c : ClassDecl) : Str :=
  match c.name with
  | some n => n
  | none => str "undefined"

/-- Source lines 117-129: the class signature before the body is appended:
the class keyword and name, then the optional type-parameter, extends and
implements clauses, each appended only when its text is truthy. -/
def ClassDecl.headText (c : ClassDecl) : Str :=
  let s1 := str "class " ++ c.classNameText
  let s2 := if c.typesText = [] then s1
            else s1 ++ str "<" ++ c.typesText ++ str ">"
  let s3 := if c.extendsText = [] then s2
            else s2 ++ str " extends " ++ c.extendsText
  if c.implementsText = [] then s3
  else s3 ++ str " implements " ++ c.implementsText

/-- Source lines 131-135: append the body: the CRLF-framed method list when
it is truthy, an otherwise empty body with an interior space. -/
def ClassDecl.signatureText (c : ClassDecl) : Str :=
  if c.methodsText = [] then c.headText ++ str " \x7b \x7d"
  else c.headText ++ str " \x7b\r\n" ++ c.methodsText ++ str "\r\n\x7d"

/-- Source lines 88-137: guard that the declaration is a class, build the
signature and trim it. -/
def formatClassDeclaration : Decl → Except Str Str
  | .classDecl c => .ok (jsTrim c.signatureText)
  | _ => .error (str "Declaration is not a class")

/-- Source lines 150-159: guard that the declaration is a variable and
render the const keyword, the name and the resolved type text. -/
def formatVariableDeclaration : Decl → Except Str Str
  | .variableDecl v => .ok (str "const " ++ v.name ++ str ": " ++ v.typeText)
  | _ => .error (str "Declaration is not a variable")

/-- Source lines 161-167: guard that the declaration is a type alias, drop
the first occurrence of the text export and trim. -/
def formatTypeAliasDeclaration : Decl → Except Str Str
  | .typeAliasDecl t => .ok (jsTrim (replaceFirst (str "export") [] t.text))
  | _ => .error (str "Declaration is not a type alias")

/-- Source lines 169-177: guard that the declaration is an enum and return
its text unchanged. -/
def formatEnumDeclaration : Decl → Except Str Str
  | .enumDecl e => .ok e.text
  | _ => .error (str "Declaration is not an enum")

/-- Source lines 186-189: the interface type parameters, each
whitespace-collapsed, joined by comma-space. -/
def InterfaceDecl.typesText (i : InterfaceDecl) : Str :=
  joinSep (str ", ") (i.typeParameters.map removeDoubleSpacesAndLineBreaks)

/-- Source lines 191-193: the interface's own property texts, each
whitespace-collapsed. -/
def InterfaceDecl.ownPropertiesText (i : InterfaceDecl) : List Str :=
  i.properties.map removeDoubleSpacesAndLineBreaks

/-- Source lines 198-208: a base declaration that is an interface
contributes a blank line, an inherited-from marker naming the base, and the
base's own whitespace-collapsed property texts; any other base contributes
nothing. -/
def baseSectionText : Option InterfaceDecl → List Str
  | some b =>
    [[], str "// inherited from " ++ b.name] ++
      b.properties.map removeDoubleSpacesAndLineBreaks
  | none => []

/-- Source lines 196-209: the concatenation of the base sections, folded
left with array concat from the empty array. -/
def InterfaceDecl.extendedPropertiesText (i : InterfaceDecl) : List Str :=
  (i.baseDeclarations.map baseSectionText).foldl (fun props prop => props ++ prop) []

/-- Source lines 211-213: own properties then inherited sections, joined
with CRLF. -/
def InterfaceDecl.propertiesText (i : InterfaceDecl) : Str :=
  joinSep (str "\r\n") (i.ownPropertiesText ++ i.extendedPropertiesText)

/-- Source lines 216-228: the interface keyword and name, the optional
type-parameter clause, then either the CRLF-framed property list or an
empty body without an interior space; the interface signature is returned
without trimming. -/
def InterfaceDecl.signatureText (i : InterfaceDecl) : Str :=
  let s1 := str "interface " ++ i.name
  let s2 := if i.typesText = [] then s1
            else s1 ++ str "<" ++ i.typesText ++ str ">"
  if i.propertiesText = [] then s2 ++ str " \x7b\x7d"
  else s2 ++ str " \x7b\r\n" ++ i.propertiesText ++ str "\r\n\x7d"

/-- Source lines 179-229: guard that the declaration is an interface and
build its signature. -/
def formatInterfaceDeclaration : Decl → Except Str Str
  | .interfaceDecl i => .ok i.signatureText
  | _ => .error (str "Declaration is not an interface")

/-- Source lines 11-20: the dispatch object mapping a kind name to its
formatting rule; looking up any other key yields undefined, here none. -/
def signaturesTable (kind : Str) : Option (Decl → Except Str Str) :=
  if kind = str "ClassDeclaration" then some formatClassDeclaration
  else if kind = str "FunctionDeclaration" then some formatFunctionDeclaration
  else if kind = str "VariableDeclaration" then some formatVariableDeclaration
  else if kind = str "InterfaceDeclaration" then some formatInterfaceDeclaration
  else if kind = str "TypeAliasDeclaration" then some formatTypeAliasDeclaration
  else if kind = str "EnumDeclaration" then some formatEnumDeclaration
  else none

/-- Source lines 51-55: pick the formatter for the declaration's kind name,
falling back to a function returning the raw declaration text. -/
def formatDeclaration (d : Decl) : Except Str Str :=
  match signaturesTable d.getKindName with
  | some formatter => formatter d
  | none => .ok d.getText

/-- One output record of the generator, mirroring the Output interface at
source lines 235-240. -/
structure Output where
  module : Str
  api : Str
  kind : Str
  signatures : List Str
deriving DecidableEq

/-- Source lines 51-56: format every overload of one exported name in
source order, propagating the first thrown error. -/
def formatSignatures : List Decl → Except Str (List Str)
  | [] => .ok []
  | d :: ds =>
    match formatDeclaration d with
    | .error e => .error e
    | .ok s =>
      match formatSignatures ds with
      | .error e => .error e
      | .ok rest => .ok (s :: rest)

/-- A barrel entry file as the analysis layer presents it: the base name of
its directory (the module name) and getExportedDeclarations as an ordered
association of exported name to declaration list. -/
structure SourceFile where
  dirBaseName : Str
  exportedDeclarations : List (Str × List Decl)

/-- Source lines 43-58: the loop over the exported declarations, pushing one
record per exported name; reading the kind of the first declaration of an
empty list is the JavaScript TypeError crash, modelled as an error. -/
def generateApiForFileGo (dirName : Str) :
    List (Str × List Decl) → Except Str (List Output)
  | [] => .ok []
  | (key, declarations) :: restEntries =>
    match declarations with
    | [] => .error (str "TypeError: cannot read getKindName of undefined")
    | d0 :: _ =>
      match formatSignatures declarations with
      | .error e => .error e
      | .ok sigs =>
        match generateApiForFileGo dirName restEntries with
        | .error e => .error e
        | .ok rest => .ok (⟨dirName, key, d0.getKindName, sigs⟩ :: rest)

/-- Source lines 39-61: one output record per exported name of the file. -/
def generateApiForFile (sf : SourceFile) : Except Str (List Output) :=
  generateApiForFileGo sf.dirBaseName sf.exportedDeclarations

/-- Source lines 26-27: map generateApiForFile over the discovered files,
propagating the first thrown error. -/
def generateApiFiles : List SourceFile → Except Str (List (List Output))
  | [] => .ok []
  | f :: fs =>
    match generateApiForFile f with
    | .error e => .error e
    | .ok out =>
      match generateApiFiles fs with
      | .error e => .error e
      | .ok rest => .ok (out :: rest)

/-- Source lines 24-30 without the file-system write: the per-file outputs
flattened by the reduce-concat fold into one ordered document. -/
def generateApi (files : List SourceFile) : Except Str (List Output) :=
  match generateApiFiles files with
  | .error e => .error e
  | .ok outs => .ok (outs.foldl (fun acc file => acc ++ file) [])

/-! ## Helper lemmas -/

/-- Two adjacent characters are not both whitespace. -/
def wsSeparated (a b : Char) : Prop := ¬(isJsWS a = true ∧ isJsWS b = true)

theorem chain'_flushRun (run : Str) :
    List.Chain' wsSeparated (flushRun (str " ") run) := by
  match run with
  | [] => exact List.chain'_nil
  | [c] => exact List.chain'_singleton c
  | _ :: _ :: _ => exact List.chain'_singleton ' '

theorem chain'_collapseGo (s : Str) :
    ∀ run, List.Chain' wsSeparated (collapseGo (str " ") run s) := by
  induction s with
  | nil => intro run; exact chain'_flushRun run
  | cons c rest ih =>
    intro run
    cases hc : isJsWS c with
    | true =>
      simp only [collapseGo, hc, if_true]
      exact ih (run ++ [c])
    | false =>
      simp only [collapseGo, hc, Bool.false_eq_true, if_false]
      refine List.chain'_append.mpr ⟨chain'_flushRun run, ?_, ?_⟩
      · refine List.chain'_cons'.mpr ⟨?_, ih []⟩
        intro y _ hcy
        rw [hc] at hcy
        exact Bool.false_ne_true hcy.1
      · intro x _ y hy hxy
        simp only [List.head?_cons, Option.mem_def, Option.some.injEq] at hy
        rw [← hy, hc] at hxy
        exact Bool.false_ne_true hxy.2

theorem chain'_of_append_left {l₁ l₂ : Str} (h : List.Chain' wsSeparated (l₁ ++ l₂)) :
    List.Chain' wsSeparated l₁ :=
  (List.chain'_append.mp h).1

theorem chain'_of_append_right {l₁ l₂ : Str} (h : List.Chain' wsSeparated (l₁ ++ l₂)) :
    List.Chain' wsSeparated l₂ :=
  (List.chain'_append.mp h).2.1

theorem chain'_jsTrim {s : Str} (h : List.Chain' wsSeparated s) :
    List.Chain' wsSeparated (jsTrim s) := by
  have h1 : s.dropWhile isJsWS <:+ s := List.dropWhile_suffix isJsWS
  obtain ⟨t1, ht1⟩ := h1
  have hu : List.Chain' wsSeparated (s.dropWhile isJsWS) := by
    rw [← ht1] at h
    exact chain'_of_append_right h
  have h2 : (s.dropWhile isJsWS).reverse.dropWhile isJsWS <:+
      (s.dropWhile isJsWS).reverse := List.dropWhile_suffix isJsWS
  obtain ⟨t2, ht2⟩ := h2
  have h3 : ((s.dropWhile isJsWS).reverse.dropWhile isJsWS).reverse ++ t2.reverse
      = s.dropWhile isJsWS := by
    have h4 := congrArg List.reverse ht2
    simp only [List.reverse_append, List.reverse_reverse] at h4
    exact h4
  rw [← h3] at hu
  exact chain'_of_append_left hu

theorem replaceFirst_left (pat repl rest : Str) (h : pat ≠ []) :
    replaceFirst pat repl (pat ++ rest) = repl ++ rest := by
  match pat with
  | [] => exact absurd rfl h
  | a :: as =>
    have hp : (a :: as).isPrefixOf (a :: (as ++ rest)) = true :=
      List.isPrefixOf_iff_prefix.mpr (List.prefix_append (a :: as) rest)
    show replaceFirst (a :: as) repl (a :: (as ++ rest)) = repl ++ rest
    simp only [replaceFirst, hp, if_true]
    congr 1
    show (a :: (as ++ rest)).drop (as.length + 1) = rest
    rw [List.drop_succ_cons]
    exact List.drop_left as rest

theorem jsTrim_cons_append_singleton (a b : Char) (m : Str)
    (ha : isJsWS a = false) (hb : isJsWS b = false) :
    jsTrim (a :: (m ++ [b])) = a :: (m ++ [b]) := by
  have h1 : (a :: (m ++ [b])).dropWhile isJsWS = a :: (m ++ [b]) := by
    simp [List.dropWhile_cons, ha]
  have h2 : (a :: (m ++ [b])).reverse = b :: (m.reverse ++ [a]) := by
    simp [List.reverse_cons, List.reverse_append, List.append_assoc]
  have h3 : (b :: (m.reverse ++ [a])).dropWhile isJsWS = b :: (m.reverse ++ [a]) := by
    simp [List.dropWhile_cons, hb]
  show ((( a :: (m ++ [b])).dropWhile isJsWS).reverse.dropWhile isJsWS).reverse
      = a :: (m ++ [b])
  rw [h1, h2, h3, ← h2, List.reverse_reverse]

theorem headText_head (c : ClassDecl) : ∃ u, c.headText = 'c' :: u := by
  have hext : ∀ (x y : Str), (∃ u, x = 'c' :: u) → ∃ v, x ++ y = 'c' :: v := by
    rintro x y ⟨u, hu⟩
    exact ⟨u ++ y, by rw [hu]; rfl⟩
  have hbase : ∃ u, str "class " ++ c.classNameText = 'c' :: u :=
    hext _ _ ⟨str "lass ", rfl⟩
  unfold ClassDecl.headText
  by_cases ht : c.typesText = [] <;> by_cases he : c.extendsText = [] <;>
    by_cases hi : c.implementsText = [] <;>
      simp only [ht, he, hi, if_true, if_false] <;>
        repeat' first | exact hbase | apply hext

theorem signatureText_decomp (c : ClassDecl) :
    ∃ m, c.signatureText = 'c' :: (m ++ ['\x7d']) := by
  obtain ⟨u, hu⟩ := headText_head c
  unfold ClassDecl.signatureText
  by_cases hm : c.methodsText = []
  · refine ⟨u ++ str " \x7b ", ?_⟩
    simp only [hm, if_true, hu]
    show 'c' :: (u ++ str " \x7b \x7d") = _
    rw [show str " \x7b \x7d" = str " \x7b " ++ ['\x7d'] from rfl, List.append_assoc]
  · refine ⟨u ++ str " \x7b\r\n" ++ c.methodsText ++ str "\r\n", ?_⟩
    simp only [hm, if_false]
    rw [hu]
    show 'c' :: (u ++ str " \x7b\r\n" ++ c.methodsText ++ str "\r\n\x7d") = _
    rw [show str "\r\n\x7d" = str "\r\n" ++ ['\x7d'] from rfl]
    simp [List.append_assoc]

theorem jsTrim_signatureText (c : ClassDecl) :
    jsTrim c.signatureText = c.signatureText := by
  obtain ⟨m, hm⟩ := signatureText_decomp c
  rw [hm]
  exact jsTrim_cons_append_singleton 'c' '\x7d' m (by decide) (by decide)

theorem formatClassDeclaration_eq (c : ClassDecl) :
    formatClassDeclaration (.classDecl c) = .ok c.signatureText := by
  show Except.ok (jsTrim c.signatureText) = _
  rw [jsTrim_signatureText]

theorem formatDeclaration_total (d : Decl) (h : d.wellFormed = true) :
    ∃ s, formatDeclaration d = .ok s := by
  cases d with
  | functionDecl f => exact ⟨_, rfl⟩
  | classDecl c => exact ⟨_, rfl⟩
  | variableDecl v => exact ⟨_, rfl⟩
  | interfaceDecl i => exact ⟨_, rfl⟩
  | typeAliasDecl t => exact ⟨_, rfl⟩
  | enumDecl e => exact ⟨_, rfl⟩
  | other k t =>
    have hk : ¬ k ∈ knownKinds := by
      simpa [Decl.wellFormed] using h
    simp only [knownKinds, List.mem_cons, List.mem_singleton, not_or] at hk
    obtain ⟨h1, h2, h3, h4, h5, h6⟩ := hk
    refine ⟨t, ?_⟩
    simp [formatDeclaration, Decl.getKindName, signaturesTable, Decl.getText,
      h1, h2, h3, h4, h5, h6]

theorem formatSignatures_total (ds : List Decl) (h : ∀ d ∈ ds, d.wellFormed = true) :
    ∃ sigs, formatSignatures ds = .ok sigs ∧
      List.Forall₂ (fun d s => formatDeclaration d = .ok s) ds sigs := by
  induction ds with
  | nil => exact ⟨[], rfl, List.Forall₂.nil⟩
  | cons d ds ih =>
    obtain ⟨s, hs⟩ := formatDeclaration_total d (h d (by simp))
    obtain ⟨sigs, hsigs, hf⟩ := ih (fun x hx => h x (List.mem_cons_of_mem d hx))
    refine ⟨s :: sigs, ?_, List.Forall₂.cons hs hf⟩
    simp only [formatSignatures]
    rw [hs, hsigs]

theorem generateApiForFileGo_total (entries : List (Str × List Decl)) (dir : Str)
    (h : ∀ p ∈ entries, p.2 ≠ [] ∧ ∀ d ∈ p.2, d.wellFormed = true) :
    ∃ out, generateApiForFileGo dir entries = .ok out ∧
      List.Forall₂ (fun (p : Str × List Decl) (r : Output) =>
        r.module = dir ∧ r.api = p.1 ∧
        (∀ d0 ∈ p.2.head?, r.kind = d0.getKindName) ∧
        List.Forall₂ (fun d s => formatDeclaration d = .ok s) p.2 r.signatures)
        entries out := by
  induction entries with
  | nil => exact ⟨[], rfl, List.Forall₂.nil⟩
  | cons p rest ih =>
    obtain ⟨hne, hwf⟩ := h p (by simp)
    obtain ⟨out, hout, hfo⟩ := ih (fun x hx => h x (List.mem_cons_of_mem p hx))
    obtain ⟨key, declarations⟩ := p
    match declarations, hne with
    | d0 :: ds, _ =>
      obtain ⟨sigs, hsigs, hf⟩ := formatSignatures_total (d0 :: ds) hwf
      refine ⟨⟨dir, key, d0.getKindName, sigs⟩ :: out, ?_, ?_⟩
      · simp only [generateApiForFileGo]
        rw [hsigs, hout]
      · refine List.Forall₂.cons ⟨rfl, rfl, ?_, hf⟩ hfo
        intro x hx
        simp only [List.head?_cons, Option.mem_def, Option.some.injEq] at hx
        rw [← hx]

theorem filterBoolean_methods (ms : List MethodDecl)
    (h : ∀ m ∈ ms, m.scope = str "public" → m.textNoBody ≠ []) :
    filterBoolean (ms.map MethodDecl.formatMethodText) =
      (ms.filter fun m => decide (m.scope = str "public")).map MethodDecl.textNoBody := by
  induction ms with
  | nil => rfl
  | cons m rest ih =>
    have hrest := ih (fun x hx hp => h x (List.mem_cons_of_mem m hx) hp)
    by_cases hp : m.scope = str "public"
    · have htx : m.textNoBody ≠ [] := h m (by simp) hp
      simp [List.map_cons, MethodDecl.formatMethodText, hp, filterBoolean,
        htx, List.filter_cons, hrest]
    · simp only [List.map_cons, MethodDecl.formatMethodText, hp, if_false,
        filterBoolean, List.filter_cons]
      simp [hp, hrest]

theorem filterBoolean_no_public (ms : List MethodDecl)
    (h : ∀ m ∈ ms, ¬ m.scope = str "public") :
    filterBoolean (ms.map MethodDecl.formatMethodText) = [] := by
  induction ms with
  | nil => rfl
  | cons m rest ih =>
    have hm := h m (by simp)
    simp only [List.map_cons, MethodDecl.formatMethodText, hm, if_false, filterBoolean]
    exact ih (fun x hx => h x (List.mem_cons_of_mem m hx))

theorem joinSep_ne_nil (sep : Str) (x : Str) (xs : List Str) (hx : x ≠ []) :
    joinSep sep (x :: xs) ≠ [] := by
  cases xs with
  | nil => exact hx
  | cons y rest =>
    simp only [joinSep, ne_eq, List.append_eq_nil, not_and]
    intro hcontra
    exact absurd hcontra.1 hx

theorem extendedProperties_all_none (bs : List (Option InterfaceDecl))
    (h : ∀ b ∈ bs, b = none) :
    ∀ acc, (bs.map baseSectionText).foldl (fun props prop => props ++ prop) acc = acc := by
  induction bs with
  | nil => intro acc; rfl
  | cons b rest ih =>
    intro acc
    have hb : b = none := h b (by simp)
    subst hb
    simp only [List.map_cons, baseSectionText, List.foldl_cons, List.append_nil]
    exact ih (fun x hx => h x (List.mem_cons_of_mem none hx)) acc

theorem class_body_ne_interface_body (p q : Str) :
    p ++ str " \x7b \x7d" ≠ q ++ str " \x7b\x7d" := by
  intro h
  have e1 : (p ++ str " \x7b \x7d").reverse = '\x7d' :: ' ' :: '\x7b' :: ' ' :: p.reverse := by
    rw [List.reverse_append]
    rfl
  have e2 : (q ++ str " \x7b\x7d").reverse = '\x7d' :: '\x7b' :: ' ' :: q.reverse := by
    rw [List.reverse_append]
    rfl
  have h' := congrArg List.reverse h
  rw [e1, e2] at h'
  injection h' with h1 h2
  injection h2 with h3 h4
  exact absurd h3 (by decide)

/-! ## Concrete inputs for the claims -/

/-- The function declaration of the C1 scenario, with the text observed
after removeBody per the analysis layer. -/
def addFunctionDecl : FunctionDecl :=
  ⟨ str "export function add(a: number, b: number): number \x7b return a+b; \x7d",
    str "export function add(a: number, b: number): number;" ⟩

/-- The widgets module barrel file of the C1 scenario. -/
def widgetsFile : SourceFile :=
  ⟨ str "widgets", [(str "add", [.functionDecl addFunctionDecl])] ⟩

/-- The record the pipeline actually produces for the widgets module. -/
def widgetsRecord : Output :=
  ⟨ str "widgets", str "add", str "FunctionDeclaration",
    [str "add(a: number, b: number): number;"] ⟩

/-- A class exporting one public method. -/
def lineBreakClass : ClassDecl :=
  ⟨some (str "X"), str "export class X \x7b foo(): void \x7b\x7d \x7d",
   [], none, [], [⟨ str "public", str "foo(): void;" ⟩]⟩

/-- An exported type alias whose own text has no leading export keyword but
contains the letters export inside a property name. -/
def aliasWithInteriorExport : TypeAliasDecl :=
  ⟨ str "type Flags = \x7b exportAll: boolean \x7d" ⟩

/-! ## Claims -/

/-- C1, counterexample: on the widgets scenario the pipeline produces the
record whose only signature is add(a: number, b: number): number; — not a
string beginning with the function keyword, so the claimed record is not
the output. -/
theorem widgets_function_keyword_not_kept :
    generateApi [widgetsFile] = .ok [widgetsRecord] ∧
    widgetsRecord.signatures ≠ [str "function add(a: number, b: number): number;"] :=
  ⟨rfl, by decide⟩

/-- C1, amended: the widgets scenario produces exactly the record with
module widgets, api add, kind FunctionDeclaration and the single signature
add(a: number, b: number): number; — the replacement removes the text
export function, so neither keyword survives. -/
theorem widgets_pipeline_record :
    generateApi [widgetsFile] =
      .ok [⟨ str "widgets", str "add", str "FunctionDeclaration",
            [str "add(a: number, b: number): number;"]⟩] := rfl

/-- C2, counterexample: the class rule output for a class with one public
method contains carriage-return and line-feed characters. -/
theorem classRule_emits_line_break :
    formatClassDeclaration (.classDecl lineBreakClass) =
      .ok (str "class X \x7b\r\nfoo(): void;\r\n\x7d") ∧
    '\r' ∈ str "class X \x7b\r\nfoo(): void;\r\n\x7d" ∧
    '\n' ∈ str "class X \x7b\r\nfoo(): void;\r\n\x7d" :=
  ⟨rfl, by decide, by decide⟩

/-- C2, amended: every signature produced by the function rule contains no
two adjacent whitespace characters, in particular no two consecutive
spaces. -/
theorem functionRule_no_adjacent_whitespace :
    ∀ f : FunctionDecl, ∃ s, formatFunctionDeclaration (.functionDecl f) = .ok s ∧
      List.Chain' wsSeparated s :=
  fun _ => ⟨_, rfl, chain'_jsTrim (chain'_collapseGo _ [])⟩

/-- C5: for interface B extending interface A which itself has arbitrary
base declarations, the formatted output of B is unchanged when A's bases
are removed (grandparent interfaces are never traversed), the inherited
section is exactly the blank line, the inherited-from-A marker and A's own
whitespace-collapsed properties, and the property block is B's own
properties followed by that section. -/
theorem interface_inheritance_one_level :
    ∀ (bn btx an atx : Str) (bt at' : List Str) (bp ap : List Str)
      (rootBases : List (Option InterfaceDecl)),
      formatInterfaceDeclaration (.interfaceDecl
          (.mk bn btx bt bp [some (.mk an atx at' ap rootBases)])) =
        formatInterfaceDeclaration (.interfaceDecl
          (.mk bn btx bt bp [some (.mk an atx at' ap [])])) ∧
      InterfaceDecl.extendedPropertiesText
          (.mk bn btx bt bp [some (.mk an atx at' ap rootBases)]) =
        [[], str "// inherited from " ++ an] ++ ap.map removeDoubleSpacesAndLineBreaks ∧
      InterfaceDecl.propertiesText
          (.mk bn btx bt bp [some (.mk an atx at' ap rootBases)]) =
        joinSep (str "\r\n") (bp.map removeDoubleSpacesAndLineBreaks ++
          ([[], str "// inherited from " ++ an] ++ ap.map removeDoubleSpacesAndLineBreaks)) :=
  fun _ _ _ _ _ _ _ _ _ => ⟨rfl, rfl, rfl⟩

/-- C8, counterexample: on an exported type alias whose text has no leading
export keyword, the rule removes the first interior occurrence of the text
export, so the output is neither the declaration text nor its trim. -/
theorem typeAlias_interior_export_removed :
    formatTypeAliasDeclaration (.typeAliasDecl aliasWithInteriorExport) =
      .ok (str "type Flags = \x7b All: boolean \x7d") ∧
    str "type Flags = \x7b All: boolean \x7d" ≠ aliasWithInteriorExport.text ∧
    str "type Flags = \x7b All: boolean \x7d" ≠ jsTrim aliasWithInteriorExport.text :=
  ⟨rfl, by decide, by decide⟩

/-- C8, amended: the type-alias rule yields the declaration text with the
first occurrence of the substring export removed and the result trimmed;
when the text does begin with the export keyword this removes exactly that
leading occurrence and keeps the rest verbatim up to trimming. -/
theorem typeAlias_replaceFirst_behaviour :
    (∀ t : TypeAliasDecl, formatTypeAliasDeclaration (.typeAliasDecl t) =
      .ok (jsTrim (replaceFirst (str "export") [] t.text))) ∧
    (∀ rest : Str, formatTypeAliasDeclaration (.typeAliasDecl ⟨ str "export" ++ rest ⟩) =
      .ok (jsTrim rest)) := by
  constructor
  · intro t
    rfl
  · intro rest
    show Except.ok (jsTrim (replaceFirst (str "export") [] (str "export" ++ rest))) = _
    rw [replaceFirst_left (str "export") [] rest (by decide), List.nil_append]

/-- C9: an exported variable renders as the const keyword, the name and the
resolved type text, independently of the initializer expression, the
declaration text and the source binding keyword. -/
theorem variable_const_resolved_type :
    ∀ (nm typeText tx tx' : Str) (init init' : Option Str) (kw kw' : Str),
      formatVariableDeclaration (.variableDecl ⟨nm, tx, typeText, init, kw⟩) =
        .ok (str "const " ++ nm ++ str ": " ++ typeText) ∧
      formatVariableDeclaration (.variableDecl ⟨nm, tx, typeText, init, kw⟩) =
        formatVariableDeclaration (.variableDecl ⟨nm, tx', typeText, init', kw'⟩) :=
  fun _ _ _ _ _ _ _ _ => ⟨rfl, rfl⟩

theorem forall₂_exists_left_of_mem {α β : Type} {R : α → β → Prop}
    {l₁ : List α} {l₂ : List β} (hf : List.Forall₂ R l₁ l₂) :
    ∀ b ∈ l₂, ∃ a ∈ l₁, R a b := by
  induction hf with
  | nil => intro b hb; cases hb
  | cons h1 h2 ih =>
    intro b hb
    rcases List.mem_cons.mp hb with rfl | hb2
    · exact ⟨_, by simp, h1⟩
    · obtain ⟨a, ha, hr⟩ := ih b hb2
      exact ⟨a, List.mem_cons_of_mem _ ha, hr⟩

/-- C3: when the analysis layer hands over a non-empty, kind-consistent
declaration list for every exported name, the assembler emits exactly one
record per exported name (the output has one record per entry, in order)
and no record has an empty signatures sequence; unknown kinds are covered
because the fallback formatter never fails. -/
theorem every_export_one_record_nonempty_signatures :
    ∀ sf : SourceFile,
      (∀ p ∈ sf.exportedDeclarations, p.2 ≠ [] ∧ ∀ d ∈ p.2, d.wellFormed = true) →
      ∃ out, generateApiForFile sf = .ok out ∧
        out.length = sf.exportedDeclarations.length ∧
        ∀ r ∈ out, r.signatures ≠ [] := by
  intro sf h
  obtain ⟨out, hout, hf⟩ :=
    generateApiForFileGo_total sf.exportedDeclarations sf.dirBaseName h
  refine ⟨out, hout, hf.length_eq.symm, ?_⟩
  intro r hr hc
  obtain ⟨p, hp, ⟨-, -, -, hsigs⟩⟩ := forall₂_exists_left_of_mem hf r hr
  have hlen := hsigs.length_eq
  rw [hc] at hlen
  exact absurd (List.length_eq_zero.mp hlen) (h p hp).1

/-- C4: for every exported name the emitted record carries exactly one
formatted signature per overload, in source order, with the i-th signature
obtained by formatting the i-th declaration; nothing is merged or
deduplicated. -/
theorem overload_signatures_in_order :
    ∀ sf : SourceFile,
      (∀ p ∈ sf.exportedDeclarations, p.2 ≠ [] ∧ ∀ d ∈ p.2, d.wellFormed = true) →
      ∃ out, generateApiForFile sf = .ok out ∧
        List.Forall₂ (fun (p : Str × List Decl) (r : Output) =>
          r.api = p.1 ∧ r.signatures.length = p.2.length ∧
          List.Forall₂ (fun d s => formatDeclaration d = .ok s) p.2 r.signatures)
          sf.exportedDeclarations out := by
  intro sf h
  obtain ⟨out, hout, hf⟩ :=
    generateApiForFileGo_total sf.exportedDeclarations sf.dirBaseName h
  refine ⟨out, hout, hf.imp ?_⟩
  rintro p r ⟨-, hapi, -, hsigs⟩
  exact ⟨hapi, hsigs.length_eq.symm, hsigs⟩

/-- C6 (amended): a class with no public method renders with the body
brace-space-brace, an interface with no own properties and no interface
base renders with the body brace-brace, and the two renderings are always
textually distinct. -/
theorem empty_class_and_interface_bodies :
    ∀ (c : ClassDecl) (i : InterfaceDecl),
      (∀ m ∈ c.methods, ¬ m.scope = str "public") →
      i.properties = [] →
      (∀ b ∈ i.baseDeclarations, b = none) →
      ∃ p q, formatClassDeclaration (.classDecl c) = .ok (p ++ str " \x7b \x7d") ∧
        formatInterfaceDeclaration (.interfaceDecl i) = .ok (q ++ str " \x7b\x7d") ∧
        p ++ str " \x7b \x7d" ≠ q ++ str " \x7b\x7d" := by
  intro c i hm hprops hbases
  have hmt : c.methodsText = [] := by
    unfold ClassDecl.methodsText
    rw [filterBoolean_no_public c.methods hm]
    rfl
  have hsig : c.signatureText = c.headText ++ str " \x7b \x7d" := by
    unfold ClassDecl.signatureText
    rw [hmt]
    simp
  have hclass : formatClassDeclaration (.classDecl c) =
      .ok (c.headText ++ str " \x7b \x7d") := by
    rw [formatClassDeclaration_eq, hsig]
  have hept : i.extendedPropertiesText = [] := by
    unfold InterfaceDecl.extendedPropertiesText
    exact extendedProperties_all_none i.baseDeclarations hbases []
  have hpt : i.propertiesText = [] := by
    unfold InterfaceDecl.propertiesText InterfaceDecl.ownPropertiesText
    rw [hprops, hept]
    rfl
  refine ⟨c.headText,
    (if i.typesText = [] then str "interface " ++ i.name
     else str "interface " ++ i.name ++ str "<" ++ i.typesText ++ str ">"),
    hclass, ?_, class_body_ne_interface_body _ _⟩
  show Except.ok i.signatureText = _
  unfold InterfaceDecl.signatureText
  rw [hpt]
  simp

/-- C7: a class method is rendered exactly when its reported scope is
public (the analysis layer reports public for a method with no explicit
modifier); the rendered methods are the body-stripped texts of precisely
the public methods, in order, joined one per CRLF line inside the body. -/
theorem public_methods_exactly_included :
    ∀ c : ClassDecl, (∀ m ∈ c.methods, m.scope = str "public" → m.textNoBody ≠ []) →
      ∃ header, formatClassDeclaration (.classDecl c) = .ok (header ++
        (if (c.methods.filter fun m => decide (m.scope = str "public")) = []
         then str " \x7b \x7d"
         else str " \x7b\r\n" ++
           joinSep (str "\r\n")
             ((c.methods.filter fun m => decide (m.scope = str "public")).map
               MethodDecl.textNoBody) ++ str "\r\n\x7d")) := by
  intro c h
  refine ⟨c.headText, ?_⟩
  rw [formatClassDeclaration_eq]
  have hmt : c.methodsText = joinSep (str "\r\n")
      ((c.methods.filter fun m => decide (m.scope = str "public")).map
        MethodDecl.textNoBody) := by
    unfold ClassDecl.methodsText
    rw [filterBoolean_methods c.methods h]
  by_cases hfil : (c.methods.filter fun m => decide (m.scope = str "public")) = []
  · have hmte : c.methodsText = [] := by
      rw [hmt, hfil]
      rfl
    unfold ClassDecl.signatureText
    simp [hmte, hfil]
  · have hne : c.methodsText ≠ [] := by
      rw [hmt]
      obtain ⟨m0, ms, hcons⟩ := List.exists_cons_of_ne_nil hfil
      rw [hcons, List.map_cons]
      apply joinSep_ne_nil
      have hmem : m0 ∈ c.methods.filter fun m => decide (m.scope = str "public") := by
        rw [hcons]
        simp
      exact h m0 (List.mem_filter.mp hmem).1
        (of_decide_eq_true (List.mem_filter.mp hmem).2)
    unfold ClassDecl.signatureText
    rw [if_neg hne, if_neg hfil, hmt]
    simp [List.append_assoc]

/-- C10: each of the six per-kind rules fails with its kind-mismatch error
exactly when its argument is not of the corresponding kind, and — because
the dispatch table selects the rule by the declaration's own kind name —
dispatch on any kind-consistent declaration never produces an error. -/
theorem kind_guard_iff_and_dispatch_total :
    (∀ d : Decl, (∃ e, formatFunctionDeclaration d = .error e) ↔ ∀ f, d ≠ .functionDecl f) ∧
    (∀ d : Decl, (∃ e, formatClassDeclaration d = .error e) ↔ ∀ c, d ≠ .classDecl c) ∧
    (∀ d : Decl, (∃ e, formatVariableDeclaration d = .error e) ↔ ∀ v, d ≠ .variableDecl v) ∧
    (∀ d : Decl, (∃ e, formatInterfaceDeclaration d = .error e) ↔ ∀ i, d ≠ .interfaceDecl i) ∧
    (∀ d : Decl, (∃ e, formatTypeAliasDeclaration d = .error e) ↔ ∀ t, d ≠ .typeAliasDecl t) ∧
    (∀ d : Decl, (∃ e, formatEnumDeclaration d = .error e) ↔ ∀ a, d ≠ .enumDecl a) ∧
    (∀ d : Decl, d.wellFormed = true → ∃ s, formatDeclaration d = .ok s) := by
  refine ⟨?_, ?_, ?_, ?_, ?_, ?_, formatDeclaration_total⟩ <;>
    intro d <;> cases d <;>
      first
        | exact iff_of_false (fun ⟨_, h⟩ => Except.noConfusion h)
            (fun hall => (hall _) rfl)
        | exact iff_of_true ⟨_, rfl⟩ (fun x h => Decl.noConfusion h)

/-! ## Witness inputs and witnesses -/

/-- A barrel file exporting an unknown-kind declaration and a function with
two overloads that format to identical strings. -/
def overloadedFile : SourceFile :=
  ⟨ str "effects",
    [(str "cfg", [.other (str "ModuleDeclaration") (str "declare module cfg")]),
     (str "go", [.functionDecl ⟨ str "export function go(a: string): void;",
                                 str "export function go(a: string): void;" ⟩,
                 .functionDecl ⟨ str "export function go(a: string): void;",
                                 str "export function go(a: string): void;" ⟩])] ⟩

theorem every_export_one_record_witness :
    ∃ out, generateApiForFile overloadedFile = .ok out ∧
      out.length = overloadedFile.exportedDeclarations.length ∧
      ∀ r ∈ out, r.signatures ≠ [] :=
  every_export_one_record_nonempty_signatures overloadedFile
    (by intro p hp; fin_cases hp <;>
          exact ⟨by simp, by intro d hd; fin_cases hd <;> rfl⟩)

theorem overload_signatures_witness :
    ∃ out, generateApiForFile overloadedFile = .ok out ∧
      List.Forall₂ (fun (p : Str × List Decl) (r : Output) =>
        r.api = p.1 ∧ r.signatures.length = p.2.length ∧
        List.Forall₂ (fun d s => formatDeclaration d = .ok s) p.2 r.signatures)
        overloadedFile.exportedDeclarations out :=
  overload_signatures_in_order overloadedFile
    (by intro p hp; fin_cases hp <;>
          exact ⟨by simp, by intro d hd; fin_cases hd <;> rfl⟩)

/-- A class whose only method is private. -/
def privateOnlyClass : ClassDecl :=
  ⟨some (str "Registry"),
   str "export class Registry \x7b private cache(): void \x7b\x7d \x7d",
   [], none, [], [⟨ str "private", str "private cache(): void;" ⟩]⟩

/-- An interface with no properties and no bases. -/
def shapeInterface : InterfaceDecl :=
  .mk (str "Shape") (str "interface Shape \x7b\x7d") [] [] []

theorem empty_bodies_witness :
    ∃ p q, formatClassDeclaration (.classDecl privateOnlyClass) =
        .ok (p ++ str " \x7b \x7d") ∧
      formatInterfaceDeclaration (.interfaceDecl shapeInterface) =
        .ok (q ++ str " \x7b\x7d") ∧
      p ++ str " \x7b \x7d" ≠ q ++ str " \x7b\x7d" :=
  empty_class_and_interface_bodies privateOnlyClass shapeInterface
    (by intro m hm; fin_cases hm; decide) rfl
    (by intro b hb; exact absurd hb (List.not_mem_nil b))

/-- A class with one public and one private method. -/
def storeClass : ClassDecl :=
  ⟨some (str "Store"),
   str "export class Store \x7b get(key: string): string \x7b return key; \x7d \x7d",
   [], none, [],
   [⟨ str "public", str "get(key: string): string;" ⟩,
    ⟨ str "private", str "private evict(): void;" ⟩]⟩

theorem public_methods_witness :
    ∃ header, formatClassDeclaration (.classDecl storeClass) = .ok (header ++
      (if (storeClass.methods.filter fun m => decide (m.scope = str "public")) = []
       then str " \x7b \x7d"
       else str " \x7b\r\n" ++
         joinSep (str "\r\n")
           ((storeClass.methods.filter fun m => decide (m.scope = str "public")).map
             MethodDecl.textNoBody) ++ str "\r\n\x7d")) :=
  public_methods_exactly_included storeClass
    (by intro m hm hp; fin_cases hm <;> decide)

theorem kind_guard_witness :
    ∃ s, formatDeclaration (.other (str "ModuleDeclaration")
      (str "declare module api")) = .ok s :=
  kind_guard_iff_and_dispatch_total.2.2.2.2.2.2 _ (by decide)

/-- Interface B with zero own properties extending interface A that itself
has zero properties: B has zero own and zero directly-inherited
properties. -/
def emptyBaseInterface : InterfaceDecl :=
  .mk (str "B") (str "interface B extends A \x7b\x7d") [] []
    [some (.mk (str "A") (str "interface A \x7b\x7d") [] [] [])]

/-- C6, counterexample: an interface with zero own and zero
directly-inherited properties whose base is an interface still receives
the blank line and the inherited-from marker, so its body is not the
two-character empty form: the output cannot be written as any prefix
followed by space-brace-brace. -/
theorem interface_with_empty_base_not_empty_body :
    formatInterfaceDeclaration (.interfaceDecl emptyBaseInterface) =
      .ok (str "interface B \x7b\r\n\r\n// inherited from A\r\n\x7d") ∧
    ¬ ∃ q, str "interface B \x7b\r\n\r\n// inherited from A\r\n\x7d" =
        q ++ str " \x7b\x7d" := by
  refine ⟨rfl, ?_⟩
  rintro ⟨q, hq⟩
  have h' := congrArg List.reverse hq
  have e2 : (q ++ str " \x7b\x7d").reverse = '\x7d' :: '\x7b' :: ' ' :: q.reverse := by
    rw [List.reverse_append]
    rfl
  rw [e2] at h'
  rw [show (str "interface B \x7b\r\n\r\n// inherited from A\r\n\x7d").reverse =
      '\x7d' :: '\n' :: '\r' ::
        (str "interface B \x7b\r\n\r\n// inherited from A").reverse from rfl] at h'
  injection h' with h1 h2
  injection h2 with h3 h4
  exact absurd h3 (by decide)
